import Mathlib

/- A shallow embedding of src/clawweb/main.py, a single-host breadth-first web
crawler.  Pure Python functions become Lean functions.  The network transport
and the HTML anchor extraction (urllib request handling plus BeautifulSoup) are
external collaborators and are modelled as an oracle mapping each URL to the
response it serves; the standard-library URL helpers (urljoin, urlparse
hostname, urldefrag, html.escape) are modelled as executable Lean functions
restricted to URLs without query strings, which the development never needs.
The unbounded while-loop of Crawler.crawl is modelled with explicit fuel, and
two ghost trace fields record every frontier insertion (q.put) and every fetch
so that multiplicity properties of the queue and of fetching can be stated. -/

/-- Whether one character list begins with another. -/
def charsHasPre : List Char → List Char → Bool
  | [], _ => true
  | _ :: _, [] => false
  | a :: as, b :: bs => (a == b) && charsHasPre as bs

/-- Whether a string starts with another (model of str.startswith, executable
by kernel reduction). -/
def strStarts (s pre : String) : Bool :=
  charsHasPre pre.toList s.toList

/-- Split a character list on a separator character (model of str.split with
a one-character separator). -/
def splitOnChar (sep : Char) : List Char → List (List Char)
  | [] => [[]]
  | c :: cs =>
      let r := splitOnChar sep cs
      if c = sep then [] :: r
      else
        match r with
        | [] => [[c]]
        | h :: t => (c :: h) :: t

/-- Split a string on slashes, as the urljoin path merge does. -/
def splitSlashes (s : String) : List String :=
  (splitOnChar '/' s.toList).map String.mk

/-- Join strings with slashes (model of the slash join in urljoin). -/
def joinWithSlash : List String → String
  | [] => ""
  | [x] => x
  | x :: y :: xs => x ++ "/" ++ joinWithSlash (y :: xs)

/-- Insert into a Python set modelled as a duplicate-free list: the element is
appended only if absent, which is exactly the observable effect of set.add. -/
def setInsert {α : Type} [DecidableEq α] (a : α) (l : List α) : List α :=
  if a ∈ l then l else l ++ [a]

/-- Number of occurrences of a string in a list. -/
def countOcc (a : String) (l : List String) : Nat :=
  l.countP (fun b => decide (b = a))

/-- Characters allowed in a URL scheme (model of urllib.parse scheme
detection: letters, digits, plus, minus, dot). -/
def isSchemeChar (c : Char) : Bool :=
  c.isAlpha || c.isDigit || c = '+' || c = '-' || c = '.'

/-- Model of urllib.parse scheme splitting: if the text before the first colon
is a well-formed scheme, return it lowercased together with the remainder,
otherwise no scheme. -/
def splitScheme (url : String) : String × String :=
  match url.toList.findIdx? (fun c => c = ':') with
  | none => ("", url)
  | some i =>
      match url.toList.take i with
      | [] => ("", url)
      | c0 :: rest0 =>
          if c0.isAlpha && (c0 :: rest0).all isSchemeChar then
            (String.mk ((c0 :: rest0).map Char.toLower),
             String.mk (url.toList.drop (i + 1)))
          else ("", url)

/-- Model of urllib.parse netloc splitting: a network location is present only
after a leading double slash and extends to the next slash, question mark or
hash character. -/
def splitNetloc (rest : String) : String × String :=
  if strStarts rest "//" then
    let after := rest.toList.drop 2
    let nl := after.takeWhile (fun c => c != '/' && c != '?' && c != '#')
    (String.mk nl, String.mk (after.drop nl.length))
  else ("", rest)

/-- The characters after the last at sign, used to strip user info from a
network location. -/
def afterLastAt (cs : List Char) : List Char :=
  cs.foldl (fun acc ch => if ch = '@' then [] else acc ++ [ch]) []

/-- Model of urlparse(url).hostname: extract the netloc, strip user info and
port, lowercase; none when the URL has no hostname (covers both the hostname
None result and the parse-failure path, which the caller treats alike). -/
def hostnameOf (url : String) : Option String :=
  let sp := splitScheme url
  let nl := (splitNetloc sp.2).1
  let host := ((afterLastAt nl.toList).takeWhile (fun c => c != ':')).map Char.toLower
  if host.isEmpty then none else some (String.mk host)

/-- Model of urllib.parse.uses_relative. -/
def usesRelative : List String :=
  ["", "ftp", "http", "gopher", "nntp", "imap", "wais", "file", "https", "shttp",
   "mms", "prospero", "rtsp", "rtspu", "sftp", "svn", "svn+ssh", "ws", "wss"]

/-- Model of urllib.parse.uses_netloc. -/
def usesNetloc : List String :=
  ["", "ftp", "http", "gopher", "nntp", "telnet", "imap", "wais", "file", "mms",
   "https", "shttp", "snews", "prospero", "rtsp", "rtspu", "rsync", "svn",
   "svn+ssh", "sftp", "nfs", "git", "git+ssh", "ws", "wss"]

/-- Resolve dot and dot-dot path segments, as in the urljoin segment loop. -/
def resolveDotsCore (segs : List String) : List String :=
  segs.foldl (fun acc seg =>
    if seg = ".." then acc.dropLast
    else if seg = "." then acc
    else acc ++ [seg]) []

/-- Segment resolution including the trailing-slash fixup urljoin applies when
the final segment is a relative directory. -/
def resolveDots (segs : List String) : List String :=
  let r := resolveDotsCore segs
  match segs.getLast? with
  | some s => if s = "." || s = ".." then r ++ [""] else r
  | none => r

/-- Drop empty strings from a list except for its final element. -/
def keepLastFilter : List String → List String
  | [] => []
  | [x] => [x]
  | x :: y :: xs =>
      if x = "" then keepLastFilter (y :: xs) else x :: keepLastFilter (y :: xs)

/-- Drop empty interior segments, keeping the first and last, as urljoin does
when merging a relative path onto the base directories. -/
def filterInterior : List String → List String
  | [] => []
  | x :: xs => x :: keepLastFilter xs

/-- Join path segments with slashes; an empty join becomes the root path. -/
def joinedPath (segs : List String) : String :=
  let j := joinWithSlash segs
  if j = "" then "/" else j

/-- Model of urllib.parse.urlunsplit restricted to scheme, netloc and path:
a nonempty netloc is prefixed with a double slash (inserting a slash before a
relative path), a path already starting with a double slash keeps one, and a
scheme that uses a netloc gets its double slash even when the netloc is
empty, as the current library does for degenerate URLs. -/
def urlunsplit3 (scheme netloc path : String) : String :=
  let p :=
    if netloc != "" then
      "//" ++ netloc ++ (if path != "" && !(strStarts path "/") then "/" ++ path else path)
    else if strStarts path "//" then
      "//" ++ path
    else if (scheme != "") && usesNetloc.contains scheme && (path == "" || strStarts path "/") then
      "//" ++ path
    else path
  if scheme != "" then scheme ++ ":" ++ p else p

/-- Model of urllib.parse.urljoin restricted to URLs without query strings:
a reference with a foreign scheme is returned unchanged, a reference with its
own netloc replaces the base, a rooted path replaces the base path, and a
relative path is merged onto the base directories with dot-segment
resolution. -/
def urljoin (base url : String) : String :=
  if base = "" then url
  else if url = "" then base
  else
    let bs := splitScheme base
    let bn := splitNetloc bs.2
    let us := splitScheme url
    let scheme := if us.1 = "" then bs.1 else us.1
    let urest := if us.1 = "" then url else us.2
    if (scheme != bs.1) || !(usesRelative.contains scheme) then url
    else
      let un := splitNetloc urest
      if usesNetloc.contains scheme && un.1 != "" then
        urlunsplit3 scheme un.1 un.2
      else
        let netloc := if un.1 = "" then bn.1 else un.1
        if un.2 = "" then urlunsplit3 scheme netloc bn.2
        else
          let segs :=
            if strStarts un.2 "/" then splitSlashes un.2
            else
              let bparts := splitSlashes bn.2
              let bdirs :=
                match bparts.getLast? with
                | some s => if s = "" then bparts else bparts.dropLast
                | none => bparts
              filterInterior (bdirs ++ splitSlashes un.2)
          urlunsplit3 scheme netloc (joinedPath (resolveDots segs))

/-- Model of html.escape applied to one character. -/
def escapeChar (c : Char) : String :=
  if c = '&' then "&amp;"
  else if c = '<' then "&lt;"
  else if c = '>' then "&gt;"
  else if c = '"' then "&quot;"
  else if c = Char.ofNat 39 then "&#x27;"
  else String.mk [c]

/-- Model of html.escape with quoting enabled, as the Fetcher applies to every
raw href before resolving it. -/
def htmlEscape (s : String) : String :=
  String.join (s.toList.map escapeChar)

/-- The parse/unparse round-trip urldefrag applies to the part before the
fragment: split the scheme (lowercasing it) and the netloc, then reassemble
with urlunsplit. -/
def defragReassemble (base : String) : String :=
  let sp := splitScheme base
  let nl := splitNetloc sp.2
  urlunsplit3 sp.1 nl.1 nl.2

/-- Model of urllib.parse.urldefrag: a URL without a hash is returned
unchanged; otherwise the part before the first hash is reparsed with urlparse
and reassembled with urlunparse, which lowercases the scheme and normalizes
degenerate URLs, and the part after the first hash is the fragment. -/
def urldefrag (url : String) : String × String :=
  let cs := url.toList
  if '#' ∈ cs then
    (defragReassemble (String.mk (cs.takeWhile (fun c => c != '#'))),
     String.mk ((cs.dropWhile (fun c => c != '#')).drop 1))
  else (url, "")

/-- Link, an edge of the output graph (main.py class Link); equality and
hashing are by the (src, dst, link_type) triple. -/
structure Link where
  src : String
  dst : String
  link_type : String
deriving DecidableEq

/-- The configuration part of a Crawler object: the fields set in
Crawler.__init__ that never change during the crawl. -/
structure Crawler where
  root : String
  host : Option String
  depth_limit : Nat
  locked : Bool
  confine : Option String
  exclude : List String
  filter_seen : Bool
deriving DecidableEq

/-- Crawler.__init__: the host is parsed from the root URL; Python default
arguments are confine none, exclude empty, locked true, filter_seen true. -/
def Crawler.init (root : String) (depth_limit : Nat) (confine : Option String)
    (exclude : List String) (locked : Bool) (filter_seen : Bool) : Crawler :=
  { root := root, host := hostnameOf root, depth_limit := depth_limit,
    locked := locked, confine := confine, exclude := exclude,
    filter_seen := filter_seen }

/-- The mutable part of a Crawler object.  Python sets are modelled as
duplicate-free lists in insertion order.  trace_enqueued records every q.put
performed during the run and trace_fetched records every Fetcher invocation
together with the depth of the dequeued item; both are ghost fields used only
to state properties. -/
structure CrawlState where
  urls_seen : List String
  urls_remembered : List String
  visited_links : List String
  links_remembered : List Link
  num_links : Nat
  num_followed : Nat
  trace_enqueued : List String
  trace_fetched : List (String × Nat)
deriving DecidableEq

/-- Crawler._pre_visit_url_condense: drop the fragment. -/
def Crawler.pre_visit_url_condense (url : String) : String :=
  (urldefrag url).1

/-- Crawler._prefix_ok: no confine configured, or the URL starts with it. -/
def Crawler.prefix_ok (c : Crawler) (url : String) : Bool :=
  match c.confine with
  | none => true
  | some p => strStarts url p

/-- Crawler._exclude_ok: the URL starts with none of the excluded prefixes. -/
def Crawler.exclude_ok (c : Crawler) (url : String) : Bool :=
  c.exclude.all (fun p => !(strStarts url p))

/-- Crawler._not_visited: the URL is not in visited_links. -/
def Crawler.not_visited (s : CrawlState) (url : String) : Bool :=
  !(decide (url ∈ s.visited_links))

/-- Crawler._same_host: the parsed hostname of the URL equals the crawler's
host; a URL without a parseable hostname yields none and the comparison fails
closed when the root has a hostname. -/
def Crawler.same_host (c : Crawler) (url : String) : Bool :=
  decide (hostnameOf url = c.host)

/-- The conjunction of the pre_visit_filters list set up in Crawler.__init__:
do_not_follow is empty exactly when all four filters pass. -/
def Crawler.follow_ok (c : Crawler) (s : CrawlState) (url : String) : Bool :=
  c.prefix_ok url && c.exclude_ok url && Crawler.not_visited s url && c.same_host url

/-- The conjunction of the out_url_filters list set up in Crawler.__init__:
prefix and same-host checks when filter_seen is set, no filters otherwise. -/
def Crawler.report_ok (c : Crawler) (url : String) : Bool :=
  if c.filter_seen then c.prefix_ok url && c.same_host url else true

/-- What the network serves for one URL: either a transport-level error
(HTTP status failure, DNS or connection failure), or a response with a
content type and the href attributes of the anchors of its body in document
order (none for an anchor without an href). -/
inductive NetResult where
  | transportError
  | page (mimeType : String) (hrefs : List (Option String))
deriving DecidableEq

/-- The network oracle, an external collaborator of the Fetcher. -/
def Network : Type := String → NetResult

/-- Result of Fetcher.fetch: a normal return carrying out_urls, or an
exception escaping fetch. -/
inductive FetchOutcome where
  | ok (outUrls : List String)
  | exn
deriving DecidableEq

/-- The anchor loop of Fetcher.fetch: escape each present href, resolve it
against the fetched page's URL, and append it unless already emitted. -/
def collectOutUrls (pageUrl : String) (hrefs : List (Option String)) : List String :=
  hrefs.foldl (fun acc h =>
    match h with
    | none => acc
    | some href =>
        let u := urljoin pageUrl (htmlEscape href)
        if u ∈ acc then acc else acc ++ [u]) []

/-- Fetcher.fetch.  A transport error (HTTPError, URLError) is caught inside
fetch and leaves out_urls empty, a normal return.  A response whose content
type is not exactly text/html makes fetch raise (in the source the raise of
the undefined name OpaqueDataException itself raises NameError; either way an
exception escapes fetch), modelled as the exn outcome.  An HTML response
yields the escaped, resolved, order-preserving deduplicated anchor URLs. -/
def Fetcher.fetch (net : Network) (url : String) : FetchOutcome :=
  match net url with
  | NetResult.transportError => FetchOutcome.ok []
  | NetResult.page mime hrefs =>
      if mime = "text/html" then FetchOutcome.ok (collectOutUrls url hrefs)
      else FetchOutcome.exn

/-- The report-filter step of the crawl loop for one outbound URL: when all
out_url_filters pass, count the link, remember the URL, and insert the Link
edge if not already present. -/
def reportStep (c : Crawler) (src : String) (s : CrawlState) (u : String) : CrawlState :=
  if Crawler.report_ok c u then
    { s with num_links := s.num_links + 1,
             urls_remembered := setInsert u s.urls_remembered,
             links_remembered := setInsert (Link.mk src u "href") s.links_remembered }
  else s

/-- The body of the inner for-loop of Crawler.crawl for one condensed
outbound URL: enqueue it at depth + 1 if never seen (recording the q.put in
the ghost trace), then apply the report-filter step.  Returns the new state
and the items enqueued. -/
def processLinkOne (c : Crawler) (src : String) (depth : Nat) (s : CrawlState)
    (u : String) : CrawlState × List (String × Nat) :=
  if u ∈ s.urls_seen then (reportStep c src s u, [])
  else
    (reportStep c src
      { s with urls_seen := setInsert u s.urls_seen,
               trace_enqueued := s.trace_enqueued ++ [u] } u,
     [(u, depth + 1)])

/-- The inner for-loop of Crawler.crawl over all condensed outbound URLs. -/
def processLinks (c : Crawler) (src : String) (depth : Nat) :
    List String → CrawlState → CrawlState × List (String × Nat)
  | [], s => (s, [])
  | u :: rest, s =>
      let pr1 := processLinkOne c src depth s u
      let pr2 := processLinks c src depth rest pr1.1
      (pr2.1, pr1.2 ++ pr2.2)

/-- The state update performed just before fetching: mark the URL visited,
bump num_followed, and record the fetch with its depth in the ghost trace. -/
def fetchMark (u : String) (d : Nat) (s : CrawlState) : CrawlState :=
  { s with visited_links := setInsert u s.visited_links,
           num_followed := s.num_followed + 1,
           trace_fetched := s.trace_fetched ++ [(u, d)] }

/-- One iteration of the while-loop of Crawler.crawl on a dequeued item: an
item beyond the depth limit is discarded untouched; otherwise, when all
follow filters pass, the URL is marked visited and fetched, and the outbound
URLs are condensed and processed; a fetch exception abandons only this item. -/
def processItem (net : Network) (c : Crawler) (u : String) (d : Nat)
    (s : CrawlState) : CrawlState × List (String × Nat) :=
  if d > c.depth_limit then (s, [])
  else if Crawler.follow_ok c s u then
    let s1 := fetchMark u d s
    match Fetcher.fetch net u with
    | FetchOutcome.exn => (s1, [])
    | FetchOutcome.ok outs =>
        processLinks c u d (outs.map Crawler.pre_visit_url_condense) s1
  else (s, [])

/-- The while-loop of Crawler.crawl as a fuelled FIFO loop.  The boolean
reports whether the queue emptied within the given fuel. -/
def crawlLoop (net : Network) (c : Crawler) :
    Nat → List (String × Nat) → CrawlState → CrawlState × Bool
  | _, [], s => (s, true)
  | 0, _ :: _, s => (s, false)
  | fuel + 1, (u, d) :: rest, s =>
      let pr := processItem net c u d s
      crawlLoop net c fuel (rest ++ pr.2) pr.1

/-- The state right after Crawler.__init__ and the initial q.put of the root
at depth 0: all sets empty, counters zero, and the root's initial enqueue
recorded in the ghost trace. -/
def initState (root : String) : CrawlState :=
  { urls_seen := [], urls_remembered := [], visited_links := [],
    links_remembered := [], num_links := 0, num_followed := 0,
    trace_enqueued := [root], trace_fetched := [] }

/-- Crawler.crawl: seed the queue with the root at depth 0 and run the loop. -/
def Crawler.crawl (net : Network) (c : Crawler) (fuel : Nat) : CrawlState × Bool :=
  crawlLoop net c fuel [(c.root, 0)] (initState c.root)

/-- Whether one character list occurs inside another. -/
def charsHasSub (needle : List Char) : List Char → Bool
  | [] => needle.isEmpty
  | c :: cs => charsHasPre needle (c :: cs) || charsHasSub needle cs

/-- Model of the Python substring test: needle in hay. -/
def containsSubstr (hay needle : String) : Bool :=
  charsHasSub needle.toList hay.toList

/-- The printing loop of getLinks: emit every outbound URL containing the
literal substring http, numbered consecutively from j. -/
def numberLinks (j : Nat) : List String → List String
  | [] => []
  | u :: rest =>
      if containsSubstr u "http" then
        (toString j ++ ". " ++ u) :: numberLinks (j + 1) rest
      else numberLinks j rest

/-- getLinks: fetch the given URL once and return the printed lines; none
models the exception that escapes getLinks when fetch raises. -/
def getLinks (net : Network) (url : String) : Option (List String) :=
  match Fetcher.fetch net url with
  | FetchOutcome.exn => none
  | FetchOutcome.ok outs => some (numberLinks 1 outs)

/-- Scenario network for a crawl whose root page links back to the root
itself through the relative href slash-a. -/
def netSelf : Network := fun u =>
  if u = "http://h/a" then NetResult.page "text/html" [some "/a"]
  else NetResult.transportError

/-- Default-configuration crawler on the netSelf root. -/
def cfgSelf : Crawler := Crawler.init "http://h/a" 1 none [] true true

/-- Scenario A network: the root page carries a same-host relative anchor and
an absolute different-host anchor; the same-host target page is empty HTML. -/
def netA : Network := fun u =>
  if u = "http://root.example/" then
    NetResult.page "text/html" [some "/a", some "http://other.example/b"]
  else if u = "http://root.example/a" then NetResult.page "text/html" []
  else NetResult.transportError

/-- Default-configuration crawler on the Scenario A root with depth limit 1. -/
def cfgA : Crawler := Crawler.init "http://root.example/" 1 none [] true true

/-- Scenario B network for a links-only run: a mailto anchor, a relative
anchor and an absolute anchor. -/
def netB : Network := fun u =>
  if u = "http://root.example/" then
    NetResult.page "text/html"
      [some "mailto:x@example.com", some "/rel", some "http://abs.example/y"]
  else NetResult.transportError

/-- A network agreeing with netB on the root URL only, used to observe that
getLinks consults nothing but the root. -/
def netBRootOnly : Network := fun u =>
  if u = "http://root.example/" then netB u else NetResult.transportError

/-- Scenario C network: the root page carries one same-host and one
different-host anchor. -/
def netC : Network := fun u =>
  if u = "http://h/" then NetResult.page "text/html" [some "/x", some "http://e/y"]
  else NetResult.transportError

/-- Default-configuration crawler on the Scenario C root with depth limit 0. -/
def cfgC : Crawler := Crawler.init "http://h/" 0 none [] true true

/-- Scenario D network: the root serves a PDF response. -/
def netD : Network := fun u =>
  if u = "http://h/" then NetResult.page "application/pdf" []
  else NetResult.transportError

/-- Default-configuration crawler on the Scenario D root with depth limit 1. -/
def cfgD : Crawler := Crawler.init "http://h/" 1 none [] true true

/-- Membership in a set-insert. -/
theorem mem_setInsert {α : Type} [DecidableEq α] (a b : α) (l : List α) :
    b ∈ setInsert a l ↔ b = a ∨ b ∈ l := by
  unfold setInsert
  by_cases h : a ∈ l
  · simp only [if_pos h]
    constructor
    · exact Or.inr
    · rintro (rfl | hb)
      · exact h
      · exact hb
  · simp [if_neg h, List.mem_append, or_comm]

/-- Set-insert preserves freedom from duplicates. -/
theorem setInsert_nodup {α : Type} [DecidableEq α] (a : α) (l : List α)
    (h : l.Nodup) : (setInsert a l).Nodup := by
  unfold setInsert
  by_cases ha : a ∈ l
  · simpa [if_pos ha] using h
  · simp [if_neg ha, List.nodup_append, h, ha]

/-- Inserting an absent element grows the length by one. -/
theorem setInsert_length_of_not_mem {α : Type} [DecidableEq α] (a : α) (l : List α)
    (h : a ∉ l) : (setInsert a l).length = l.length + 1 := by
  simp [setInsert, if_neg h]

/-- Occurrence count of a head extension. -/
theorem countOcc_cons (a b : String) (l : List String) :
    countOcc a (b :: l) = countOcc a l + (if b = a then 1 else 0) := by
  simp [countOcc, List.countP_cons]

/-- Occurrence count distributes over append. -/
theorem countOcc_append (a : String) (l₁ l₂ : List String) :
    countOcc a (l₁ ++ l₂) = countOcc a l₁ + countOcc a l₂ := by
  simp [countOcc, List.countP_append]

/-- An absent string occurs zero times. -/
theorem countOcc_eq_zero_of_not_mem (a : String) (l : List String) (h : a ∉ l) :
    countOcc a l = 0 := by
  induction l with
  | nil => rfl
  | cons b t ih =>
      have hba : ¬ (b = a) := fun e => h (e ▸ List.mem_cons_self b t)
      rw [countOcc_cons, if_neg hba, ih (fun hm => h (List.mem_cons_of_mem _ hm))]

/-- In a duplicate-free list every string occurs at most once. -/
theorem countOcc_le_one_of_nodup (a : String) (l : List String) (h : l.Nodup) :
    countOcc a l ≤ 1 := by
  induction l with
  | nil => exact Nat.zero_le 1
  | cons b t ih =>
      rw [List.nodup_cons] at h
      rw [countOcc_cons]
      by_cases hba : b = a
      · subst hba
        rw [countOcc_eq_zero_of_not_mem b t h.1, if_pos rfl]
      · rw [if_neg hba]
        simpa using ih h.2

/-- The report step leaves urls_seen unchanged. -/
theorem reportStep_urls_seen (c : Crawler) (src : String) (s : CrawlState) (u : String) :
    (reportStep c src s u).urls_seen = s.urls_seen := by
  unfold reportStep; split <;> rfl

/-- The report step leaves the enqueue trace unchanged. -/
theorem reportStep_trace_enqueued (c : Crawler) (src : String) (s : CrawlState) (u : String) :
    (reportStep c src s u).trace_enqueued = s.trace_enqueued := by
  unfold reportStep; split <;> rfl

/-- The report step leaves visited_links unchanged. -/
theorem reportStep_visited (c : Crawler) (src : String) (s : CrawlState) (u : String) :
    (reportStep c src s u).visited_links = s.visited_links := by
  unfold reportStep; split <;> rfl

/-- The report step leaves num_followed unchanged. -/
theorem reportStep_num_followed (c : Crawler) (src : String) (s : CrawlState) (u : String) :
    (reportStep c src s u).num_followed = s.num_followed := by
  unfold reportStep; split <;> rfl

/-- The report step leaves the fetch trace unchanged. -/
theorem reportStep_trace_fetched (c : Crawler) (src : String) (s : CrawlState) (u : String) :
    (reportStep c src s u).trace_fetched = s.trace_fetched := by
  unfold reportStep; split <;> rfl

/-- How the report step changes num_links. -/
theorem reportStep_num_links (c : Crawler) (src : String) (s : CrawlState) (u : String) :
    (reportStep c src s u).num_links =
      s.num_links + (if Crawler.report_ok c u = true then 1 else 0) := by
  unfold reportStep; split <;> simp [*]

/-- How the report step changes links_remembered. -/
theorem reportStep_links (c : Crawler) (src : String) (s : CrawlState) (u : String) :
    (reportStep c src s u).links_remembered =
      (if Crawler.report_ok c u = true then
        setInsert (Link.mk src u "href") s.links_remembered
      else s.links_remembered) := by
  unfold reportStep; split <;> simp [*]

/-- Processing one outbound URL leaves visited_links unchanged. -/
theorem processLinkOne_visited (c : Crawler) (src : String) (d : Nat) (s : CrawlState)
    (u : String) : ((processLinkOne c src d s u).1).visited_links = s.visited_links := by
  unfold processLinkOne; split <;> simp [reportStep_visited]

/-- Processing one outbound URL leaves num_followed unchanged. -/
theorem processLinkOne_num_followed (c : Crawler) (src : String) (d : Nat) (s : CrawlState)
    (u : String) : ((processLinkOne c src d s u).1).num_followed = s.num_followed := by
  unfold processLinkOne; split <;> simp [reportStep_num_followed]

/-- Processing one outbound URL leaves the fetch trace unchanged. -/
theorem processLinkOne_trace_fetched (c : Crawler) (src : String) (d : Nat) (s : CrawlState)
    (u : String) : ((processLinkOne c src d s u).1).trace_fetched = s.trace_fetched := by
  unfold processLinkOne; split <;> simp [reportStep_trace_fetched]

/-- How processing one outbound URL changes num_links. -/
theorem processLinkOne_num_links (c : Crawler) (src : String) (d : Nat) (s : CrawlState)
    (u : String) : ((processLinkOne c src d s u).1).num_links =
      s.num_links + (if Crawler.report_ok c u = true then 1 else 0) := by
  unfold processLinkOne; split <;> simp [reportStep_num_links]

/-- How processing one outbound URL changes links_remembered. -/
theorem processLinkOne_links (c : Crawler) (src : String) (d : Nat) (s : CrawlState)
    (u : String) : ((processLinkOne c src d s u).1).links_remembered =
      (if Crawler.report_ok c u = true then
        setInsert (Link.mk src u "href") s.links_remembered
      else s.links_remembered) := by
  unfold processLinkOne; split <;> simp [reportStep_links]

/-- Case analysis of the enqueue behaviour of one outbound URL: a seen URL
changes neither urls_seen nor the trace and enqueues nothing; an unseen URL
is appended to both and enqueued at depth + 1. -/
theorem processLinkOne_seen_cases (c : Crawler) (src : String) (d : Nat) (s : CrawlState)
    (u : String) :
    (u ∈ s.urls_seen ∧ ((processLinkOne c src d s u).1).urls_seen = s.urls_seen ∧
      ((processLinkOne c src d s u).1).trace_enqueued = s.trace_enqueued ∧
      (processLinkOne c src d s u).2 = []) ∨
    (u ∉ s.urls_seen ∧ ((processLinkOne c src d s u).1).urls_seen = s.urls_seen ++ [u] ∧
      ((processLinkOne c src d s u).1).trace_enqueued = s.trace_enqueued ++ [u] ∧
      (processLinkOne c src d s u).2 = [(u, d + 1)]) := by
  unfold processLinkOne
  by_cases h : u ∈ s.urls_seen
  · exact Or.inl ⟨h, by simp [if_pos h, reportStep_urls_seen],
      by simp [if_pos h, reportStep_trace_enqueued], by simp [if_pos h]⟩
  · refine Or.inr ⟨h, ?_, ?_, by simp [if_neg h]⟩
    · simp [if_neg h, reportStep_urls_seen, setInsert]
    · simp [if_neg h, reportStep_trace_enqueued]

/-- Unfolding equation of the inner loop at a cons. -/
theorem processLinks_cons (c : Crawler) (src : String) (d : Nat) (u : String)
    (rest : List String) (s : CrawlState) :
    processLinks c src d (u :: rest) s =
      ((processLinks c src d rest ((processLinkOne c src d s u).1)).1,
       (processLinkOne c src d s u).2 ++
         (processLinks c src d rest ((processLinkOne c src d s u).1)).2) := rfl

/-- A property preserved by each single-URL step is preserved by the whole
inner loop. -/
theorem processLinks_preserve (c : Crawler) (src : String) (d : Nat)
    (P : CrawlState → Prop)
    (h : ∀ s u, P s → P ((processLinkOne c src d s u).1)) :
    ∀ (urls : List String) (s : CrawlState), P s → P ((processLinks c src d urls s).1) := by
  intro urls
  induction urls with
  | nil => intro s hs; exact hs
  | cons u rest ih => intro s hs; exact ih _ (h s u hs)

/-- The inner loop leaves visited_links unchanged. -/
theorem processLinks_visited (c : Crawler) (src : String) (d : Nat) :
    ∀ (urls : List String) (s : CrawlState),
      ((processLinks c src d urls s).1).visited_links = s.visited_links := by
  intro urls
  induction urls with
  | nil => intro s; rfl
  | cons u rest ih => intro s; rw [processLinks_cons]; exact (ih _).trans (processLinkOne_visited c src d s u)

/-- The inner loop leaves num_followed unchanged. -/
theorem processLinks_num_followed (c : Crawler) (src : String) (d : Nat) :
    ∀ (urls : List String) (s : CrawlState),
      ((processLinks c src d urls s).1).num_followed = s.num_followed := by
  intro urls
  induction urls with
  | nil => intro s; rfl
  | cons u rest ih => intro s; rw [processLinks_cons]; exact (ih _).trans (processLinkOne_num_followed c src d s u)

/-- The inner loop leaves the fetch trace unchanged. -/
theorem processLinks_trace_fetched (c : Crawler) (src : String) (d : Nat) :
    ∀ (urls : List String) (s : CrawlState),
      ((processLinks c src d urls s).1).trace_fetched = s.trace_fetched := by
  intro urls
  induction urls with
  | nil => intro s; rfl
  | cons u rest ih => intro s; rw [processLinks_cons]; exact (ih _).trans (processLinkOne_trace_fetched c src d s u)

/-- The inner loop adds to num_links exactly the number of outbound URLs
passing the report filters, duplicates included. -/
theorem processLinks_num_links (c : Crawler) (src : String) (d : Nat) :
    ∀ (urls : List String) (s : CrawlState),
      ((processLinks c src d urls s).1).num_links =
        s.num_links + urls.countP (fun v => Crawler.report_ok c v) := by
  intro urls
  induction urls with
  | nil => intro s; simp [processLinks]
  | cons u rest ih =>
      intro s
      rw [processLinks_cons]
      show ((processLinks c src d rest ((processLinkOne c src d s u).1)).1).num_links = _
      rw [ih, processLinkOne_num_links, List.countP_cons]
      by_cases h : Crawler.report_ok c u = true
      · simp [h]
        omega
      · simp [h]

/-- links_remembered only grows along the inner loop. -/
theorem processLinks_links_mono (c : Crawler) (src : String) (d : Nat) :
    ∀ (urls : List String) (s : CrawlState) (l : Link), l ∈ s.links_remembered →
      l ∈ ((processLinks c src d urls s).1).links_remembered := by
  intro urls
  induction urls with
  | nil => intro s l hl; exact hl
  | cons u rest ih =>
      intro s l hl
      rw [processLinks_cons]
      refine ih _ l ?_
      rw [processLinkOne_links]
      by_cases h : Crawler.report_ok c u = true
      · rw [if_pos h, mem_setInsert]; exact Or.inr hl
      · rwa [if_neg h]

/-- Every outbound URL passing the report filters yields its Link edge in
links_remembered after the inner loop. -/
theorem processLinks_links_mem (c : Crawler) (src : String) (d : Nat) :
    ∀ (urls : List String) (s : CrawlState) (v : String), v ∈ urls →
      Crawler.report_ok c v = true →
      Link.mk src v "href" ∈ ((processLinks c src d urls s).1).links_remembered := by
  intro urls
  induction urls with
  | nil => intro s v hv; exact absurd hv (List.not_mem_nil v)
  | cons u rest ih =>
      intro s v hv hrep
      rw [processLinks_cons]
      rcases List.mem_cons.mp hv with rfl | hv'
      · refine processLinks_links_mono c src d rest _ _ ?_
        rw [processLinkOne_links, if_pos hrep, mem_setInsert]
        exact Or.inl rfl
      · exact ih _ v hv' hrep

/-- Every item the inner loop enqueues has depth one past the current one. -/
theorem processLinks_items_depth (c : Crawler) (src : String) (d : Nat) :
    ∀ (urls : List String) (s : CrawlState) (it : String × Nat),
      it ∈ (processLinks c src d urls s).2 → it.2 = d + 1 := by
  intro urls
  induction urls with
  | nil => intro s it hit; exact absurd hit (List.not_mem_nil it)
  | cons u rest ih =>
      intro s it hit
      rw [processLinks_cons] at hit
      rcases List.mem_append.mp hit with h1 | h2
      · rcases processLinkOne_seen_cases c src d s u with ⟨_, _, _, he⟩ | ⟨_, _, _, he⟩
        · rw [he] at h1; exact absurd h1 (List.not_mem_nil it)
        · rw [he] at h1
          rw [List.mem_singleton.mp h1]
      · exact ih _ it h2

/-- The inner loop enqueues at most one item per outbound URL. -/
theorem processLinks_items_len (c : Crawler) (src : String) (d : Nat) :
    ∀ (urls : List String) (s : CrawlState),
      (processLinks c src d urls s).2.length ≤ urls.length := by
  intro urls
  induction urls with
  | nil => intro s; exact Nat.zero_le 0
  | cons u rest ih =>
      intro s
      rw [processLinks_cons]
      simp only [List.length_append, List.length_cons]
      have h1 : (processLinkOne c src d s u).2.length ≤ 1 := by
        rcases processLinkOne_seen_cases c src d s u with ⟨_, _, _, he⟩ | ⟨_, _, _, he⟩ <;>
          simp [he]
      have h2 := ih ((processLinkOne c src d s u).1)
      omega

/-- An item beyond the depth limit is discarded: the state is untouched and
nothing is enqueued. -/
theorem processItem_discard (net : Network) (c : Crawler) (u : String) (d : Nat)
    (s : CrawlState) (h : c.depth_limit < d) :
    processItem net c u d s = (s, []) := by
  unfold processItem
  rw [if_pos h]

/-- A property preserved by the fetch marking (under the follow filters and
the depth bound) and by every single-URL report step is preserved by one loop
iteration. -/
theorem processItem_preserve (net : Network) (c : Crawler) (P : CrawlState → Prop)
    (hmark : ∀ u d s, Crawler.follow_ok c s u = true → d ≤ c.depth_limit →
      P s → P (fetchMark u d s))
    (hlink : ∀ src depth s u, P s → P ((processLinkOne c src depth s u).1)) :
    ∀ (u : String) (d : Nat) (s : CrawlState), P s → P ((processItem net c u d s).1) := by
  intro u d s hs
  unfold processItem
  split
  · exact hs
  · next hdep =>
      split
      · next hfol =>
          have hdle : d ≤ c.depth_limit := Nat.le_of_not_lt hdep
          cases hFetch : Fetcher.fetch net u with
          | ok outs =>
              simp only [hFetch]
              exact processLinks_preserve c u d P (hlink u d) _ _ (hmark u d s hfol hdle hs)
          | exn =>
              simp only [hFetch]
              exact hmark u d s hfol hdle hs
      · exact hs

/-- Unfolding equation of the crawl loop at a nonempty queue with fuel. -/
theorem crawlLoop_step (net : Network) (c : Crawler) (fuel : Nat) (u : String)
    (d : Nat) (rest : List (String × Nat)) (s : CrawlState) :
    crawlLoop net c (fuel + 1) ((u, d) :: rest) s =
      crawlLoop net c fuel (rest ++ (processItem net c u d s).2)
        ((processItem net c u d s).1) := rfl

/-- The crawl loop on an empty queue reports completion at any fuel. -/
theorem crawlLoop_nil (net : Network) (c : Crawler) (fuel : Nat) (s : CrawlState) :
    crawlLoop net c fuel [] s = (s, true) := by
  cases fuel <;> rfl

/-- A property preserved by one loop iteration holds at every loop exit. -/
theorem crawlLoop_preserve (net : Network) (c : Crawler) (P : CrawlState → Prop)
    (hstep : ∀ u d s, P s → P ((processItem net c u d s).1)) :
    ∀ (fuel : Nat) (q : List (String × Nat)) (s : CrawlState),
      P s → P ((crawlLoop net c fuel q s).1) := by
  intro fuel
  induction fuel with
  | zero =>
      intro q s hs
      cases q with
      | nil => exact hs
      | cons it rest => exact hs
  | succ f ih =>
      intro q s hs
      cases q with
      | nil => exact hs
      | cons it rest =>
          obtain ⟨u, d⟩ := it
          rw [crawlLoop_step]
          exact ih _ _ (hstep u d s hs)

/-- A queue consisting only of items beyond the depth limit drains without
touching the state, given fuel at least its length. -/
theorem crawlLoop_drain (net : Network) (c : Crawler) :
    ∀ (q : List (String × Nat)) (fuel : Nat) (s : CrawlState),
      (∀ it ∈ q, c.depth_limit < it.2) → q.length ≤ fuel →
      crawlLoop net c fuel q s = (s, true) := by
  intro q
  induction q with
  | nil => intro fuel s _ _; exact crawlLoop_nil net c fuel s
  | cons it rest ih =>
      intro fuel s hq hlen
      obtain ⟨u, d⟩ := it
      obtain ⟨f, rfl⟩ : ∃ f, fuel = f + 1 := by
        cases fuel
        · exact absurd hlen (by simp)
        · exact ⟨_, rfl⟩
      rw [crawlLoop_step, processItem_discard net c u d s (hq (u, d) (List.mem_cons_self _ _))]
      simp only [List.append_nil]
      refine ih f s (fun it hit => hq it (List.mem_cons_of_mem _ hit)) ?_
      simpa using Nat.le_of_succ_le_succ hlen

/-- Taking while a predicate holds changes nothing when it holds everywhere. -/
theorem takeWhile_of_all {α : Type} (p : α → Bool) (l : List α)
    (h : ∀ a ∈ l, p a = true) : l.takeWhile p = l := by
  induction l with
  | nil => rfl
  | cons a t ih =>
      rw [List.takeWhile_cons, if_pos (h a (List.mem_cons_self a t))]
      rw [ih (fun b hb => h b (List.mem_cons_of_mem a hb))]

/-- Every element surviving takeWhile satisfies the predicate. -/
theorem mem_takeWhile_sat {α : Type} (p : α → Bool) (l : List α) :
    ∀ a ∈ l.takeWhile p, p a = true := by
  induction l with
  | nil => intro a ha; exact absurd ha (List.not_mem_nil a)
  | cons b t ih =>
      intro a ha
      rw [List.takeWhile_cons] at ha
      by_cases hb : p b = true
      · rw [if_pos hb] at ha
        rcases List.mem_cons.mp ha with rfl | ha'
        · exact hb
        · exact ih a ha'
      · rw [if_neg hb] at ha
        exact absurd ha (List.not_mem_nil a)

/-- takeWhile is idempotent. -/
theorem takeWhile_idem {α : Type} (p : α → Bool) (l : List α) :
    (l.takeWhile p).takeWhile p = l.takeWhile p :=
  takeWhile_of_all p _ (mem_takeWhile_sat p l)

/-- Claim C1, counterexample: on a crawl whose root page links back to the
root through the relative href slash-a, the root URL is enqueued twice, once
by the initial q.put and once when rediscovered as an outbound link, because
the initial enqueue never records the root in urls_seen.  This refutes the
claim that no URL, the root included, is ever enqueued a second time. -/
theorem claim1_cex_root_enqueued_twice :
    ¬ (countOcc "http://h/a" ((Crawler.crawl netSelf cfgSelf 3).1.trace_enqueued) ≤ 1) := by
  decide

/-- The enqueue-trace invariant: the trace is the root followed by the
discovery enqueues, which are pairwise distinct and all recorded in
urls_seen. -/
def EnqueueInv (c : Crawler) (s : CrawlState) : Prop :=
  ∃ t, s.trace_enqueued = c.root :: t ∧ t.Nodup ∧ ∀ v ∈ t, v ∈ s.urls_seen

/-- One outbound-URL step preserves the enqueue-trace invariant. -/
theorem processLinkOne_enqueueInv (c : Crawler) (src : String) (d : Nat)
    (s : CrawlState) (u : String) (h : EnqueueInv c s) :
    EnqueueInv c ((processLinkOne c src d s u).1) := by
  obtain ⟨t, htrace, hnd, hsub⟩ := h
  rcases processLinkOne_seen_cases c src d s u with
    ⟨hmem, hseen, henq, _⟩ | ⟨hmem, hseen, henq, _⟩
  · exact ⟨t, henq.trans htrace, hnd, fun v hv => hseen ▸ hsub v hv⟩
  · refine ⟨t ++ [u], ?_, ?_, ?_⟩
    · rw [henq, htrace, List.cons_append]
    · have hut : u ∉ t := fun hut => hmem (hsub u hut)
      simp [List.nodup_append, hnd, hut]
    · intro v hv
      rw [hseen, List.mem_append]
      rcases List.mem_append.mp hv with hv1 | hv2
      · exact Or.inl (hsub v hv1)
      · exact Or.inr hv2

/-- The fetch marking preserves the enqueue-trace invariant. -/
theorem fetchMark_enqueueInv (c : Crawler) (u : String) (d : Nat) (s : CrawlState)
    (h : EnqueueInv c s) : EnqueueInv c (fetchMark u d s) := by
  obtain ⟨t, htrace, hnd, hsub⟩ := h
  exact ⟨t, htrace, hnd, hsub⟩

/-- Claim C1, amended: every URL other than the root is enqueued at most
once over the whole run (discovery enqueues are guarded by urls_seen), while
the root itself is enqueued at most twice, since its initial enqueue is not
recorded in urls_seen and it can be rediscovered once. -/
theorem claim1_amended_enqueue_bound (net : Network) (c : Crawler) (fuel : Nat) :
    (∀ u : String, u ≠ c.root →
      countOcc u ((Crawler.crawl net c fuel).1.trace_enqueued) ≤ 1) ∧
    countOcc c.root ((Crawler.crawl net c fuel).1.trace_enqueued) ≤ 2 := by
  have hinv : EnqueueInv c ((Crawler.crawl net c fuel).1) := by
    refine crawlLoop_preserve net c (EnqueueInv c) ?_ fuel _ _ ?_
    · exact processItem_preserve net c (EnqueueInv c)
        (fun u d s _ _ h => fetchMark_enqueueInv c u d s h)
        (fun src depth s u h => processLinkOne_enqueueInv c src depth s u h)
    · exact ⟨[], rfl, List.nodup_nil, fun v hv => absurd hv (List.not_mem_nil v)⟩
  obtain ⟨t, htrace, hnd, _⟩ := hinv
  constructor
  · intro u hu
    rw [htrace, countOcc_cons, if_neg (fun e => hu e.symm)]
    simpa using countOcc_le_one_of_nodup u t hnd
  · rw [htrace, countOcc_cons]
    have := countOcc_le_one_of_nodup c.root t hnd
    by_cases h : c.root = c.root
    · rw [if_pos h]; omega
    · exact absurd rfl h

/-- Witness for the amended C1 bound at a concrete crawl. -/
theorem claim1_amended_enqueue_bound_witness :
    countOcc "x" ((Crawler.crawl netSelf cfgSelf 3).1.trace_enqueued) ≤ 1 ∧
    countOcc "http://h/a" ((Crawler.crawl netSelf cfgSelf 3).1.trace_enqueued) ≤ 2 :=
  ⟨(claim1_amended_enqueue_bound netSelf cfgSelf 3).1 "x" (by decide),
   (claim1_amended_enqueue_bound netSelf cfgSelf 3).2⟩

/-- The visited/fetch invariant: visited_links is duplicate-free, its size
equals num_followed, the fetched URLs are pairwise distinct, and every
fetched URL is in visited_links. -/
def VisitInv (s : CrawlState) : Prop :=
  s.visited_links.Nodup ∧
  s.visited_links.length = s.num_followed ∧
  (s.trace_fetched.map Prod.fst).Nodup ∧
  ∀ v ∈ s.trace_fetched.map Prod.fst, v ∈ s.visited_links

/-- One outbound-URL step preserves the visited/fetch invariant. -/
theorem processLinkOne_visitInv (c : Crawler) (src : String) (d : Nat)
    (s : CrawlState) (u : String) (h : VisitInv s) :
    VisitInv ((processLinkOne c src d s u).1) := by
  obtain ⟨h1, h2, h3, h4⟩ := h
  refine ⟨?_, ?_, ?_, ?_⟩
  · rw [processLinkOne_visited]; exact h1
  · rw [processLinkOne_visited, processLinkOne_num_followed]; exact h2
  · rw [processLinkOne_trace_fetched]; exact h3
  · rw [processLinkOne_trace_fetched, processLinkOne_visited]; exact h4

/-- The fetch marking preserves the visited/fetch invariant, because the
follow filters include _not_visited. -/
theorem fetchMark_visitInv (c : Crawler) (u : String) (d : Nat) (s : CrawlState)
    (hfol : Crawler.follow_ok c s u = true) (h : VisitInv s) :
    VisitInv (fetchMark u d s) := by
  obtain ⟨h1, h2, h3, h4⟩ := h
  have hnv : u ∉ s.visited_links := by
    have := hfol
    unfold Crawler.follow_ok Crawler.not_visited at this
    simp only [Bool.and_eq_true, Bool.not_eq_true', decide_eq_false_iff_not] at this
    exact this.1.2
  have hmap : (fetchMark u d s).trace_fetched.map Prod.fst =
      s.trace_fetched.map Prod.fst ++ [u] := by
    show (s.trace_fetched ++ [(u, d)]).map Prod.fst = _
    simp
  refine ⟨?_, ?_, ?_, ?_⟩
  · exact setInsert_nodup u s.visited_links h1
  · show (setInsert u s.visited_links).length = s.num_followed + 1
    rw [setInsert_length_of_not_mem u _ hnv, h2]
  · rw [hmap]
    have hum : u ∉ s.trace_fetched.map Prod.fst := fun hm => hnv (h4 u hm)
    simp [List.nodup_append, h3, hum]
  · intro v hv
    rw [hmap, List.mem_append] at hv
    show v ∈ setInsert u s.visited_links
    rw [mem_setInsert]
    rcases hv with hv1 | hv2
    · exact Or.inr (h4 v hv1)
    · exact Or.inl (List.mem_singleton.mp hv2)

/-- Claim C2: at the end of every crawl (complete or fuel-exhausted), the set
visited_links is duplicate-free, its size equals num_followed, and no URL is
ever fetched twice: the fetch trace carries pairwise distinct URLs. -/
theorem claim2_visited_size_and_fetch_once (net : Network) (c : Crawler) (fuel : Nat) :
    ((Crawler.crawl net c fuel).1).visited_links.Nodup ∧
    ((Crawler.crawl net c fuel).1).visited_links.length =
      ((Crawler.crawl net c fuel).1).num_followed ∧
    (((Crawler.crawl net c fuel).1).trace_fetched.map Prod.fst).Nodup := by
  have hinv : VisitInv ((Crawler.crawl net c fuel).1) := by
    refine crawlLoop_preserve net c VisitInv ?_ fuel _ _ ?_
    · exact processItem_preserve net c VisitInv
        (fun u d s hfol _ h => fetchMark_visitInv c u d s hfol h)
        (fun src depth s u h => processLinkOne_visitInv c src depth s u h)
    · exact ⟨List.nodup_nil, rfl, List.nodup_nil,
        fun v hv => absurd hv (List.not_mem_nil v)⟩
  exact ⟨hinv.1, hinv.2.1, hinv.2.2.1⟩

/-- The depth invariant: every fetch happened at a depth within the limit,
and every visited URL was fetched at some such depth. -/
def DepthInv (c : Crawler) (s : CrawlState) : Prop :=
  ∀ v ∈ s.visited_links, ∃ d, d ≤ c.depth_limit ∧ (v, d) ∈ s.trace_fetched

/-- One outbound-URL step preserves the depth invariant. -/
theorem processLinkOne_depthInv (c : Crawler) (src : String) (d : Nat)
    (s : CrawlState) (u : String) (h : DepthInv c s) :
    DepthInv c ((processLinkOne c src d s u).1) := by
  intro v hv
  rw [processLinkOne_visited] at hv
  rw [processLinkOne_trace_fetched]
  exact h v hv

/-- The fetch marking preserves the depth invariant when applied within the
depth limit. -/
theorem fetchMark_depthInv (c : Crawler) (u : String) (d : Nat) (s : CrawlState)
    (hdle : d ≤ c.depth_limit) (h : DepthInv c s) : DepthInv c (fetchMark u d s) := by
  intro v hv
  have hv' : v ∈ setInsert u s.visited_links := hv
  rw [mem_setInsert] at hv'
  rcases hv' with rfl | hvs
  · exact ⟨d, hdle, by show (v, d) ∈ s.trace_fetched ++ [(v, d)]; simp⟩
  · obtain ⟨d0, hd0, hmem⟩ := h v hvs
    exact ⟨d0, hd0, by show (v, d0) ∈ s.trace_fetched ++ [(u, d)]; simp [hmem]⟩

/-- Claim C3: a dequeued item beyond the depth limit is discarded with no
state change and nothing enqueued, and consequently every URL in
visited_links was fetched from a dequeued item whose depth was within the
limit. -/
theorem claim3_depth_limit_enforced (net : Network) (c : Crawler) :
    (∀ (u : String) (d : Nat) (s : CrawlState), c.depth_limit < d →
      processItem net c u d s = (s, [])) ∧
    ∀ (fuel : Nat) (u : String), u ∈ ((Crawler.crawl net c fuel).1).visited_links →
      ∃ d, d ≤ c.depth_limit ∧ (u, d) ∈ ((Crawler.crawl net c fuel).1).trace_fetched := by
  constructor
  · exact fun u d s h => processItem_discard net c u d s h
  · intro fuel
    refine crawlLoop_preserve net c (DepthInv c) ?_ fuel _ _ ?_
    · exact processItem_preserve net c (DepthInv c)
        (fun u d s _ hdle h => fetchMark_depthInv c u d s hdle h)
        (fun src depth s u h => processLinkOne_depthInv c src depth s u h)
    · exact fun v hv => absurd hv (List.not_mem_nil v)

/-- Witness for C3 at a concrete crawl: a deep item is discarded untouched,
and the root was fetched within the limit. -/
theorem claim3_depth_limit_enforced_witness :
    processItem netSelf cfgSelf "x" 5 (initState "http://h/a") =
      (initState "http://h/a", []) ∧
    ∃ d, d ≤ cfgSelf.depth_limit ∧
      ("http://h/a", d) ∈ ((Crawler.crawl netSelf cfgSelf 3).1).trace_fetched :=
  ⟨(claim3_depth_limit_enforced netSelf cfgSelf).1 "x" 5 _ (by decide),
   (claim3_depth_limit_enforced netSelf cfgSelf).2 3 "http://h/a" (by decide)⟩

/-- A URL passing the report filters under filter_seen has the crawler's
host as its parsed hostname. -/
theorem report_ok_same_host (c : Crawler) (u : String) (hfs : c.filter_seen = true)
    (h : Crawler.report_ok c u = true) : hostnameOf u = c.host := by
  unfold Crawler.report_ok at h
  rw [if_pos hfs] at h
  simp only [Bool.and_eq_true] at h
  have h2 := h.2
  unfold Crawler.same_host at h2
  exact of_decide_eq_true h2

/-- The host invariant: every remembered link's destination hostname is the
crawler's host. -/
def HostInv (c : Crawler) (s : CrawlState) : Prop :=
  ∀ l ∈ s.links_remembered, hostnameOf l.dst = c.host

/-- One outbound-URL step preserves the host invariant when filter_seen is
set. -/
theorem processLinkOne_hostInv (c : Crawler) (hfs : c.filter_seen = true)
    (src : String) (d : Nat) (s : CrawlState) (u : String) (h : HostInv c s) :
    HostInv c ((processLinkOne c src d s u).1) := by
  intro l hl
  rw [processLinkOne_links] at hl
  by_cases hrep : Crawler.report_ok c u = true
  · rw [if_pos hrep, mem_setInsert] at hl
    rcases hl with rfl | hl'
    · exact report_ok_same_host c u hfs hrep
    · exact h l hl'
  · rw [if_neg hrep] at hl
    exact h l hl

/-- Claim C9: with host-locking in place (default report filters, root with a
parseable hostname), every Link in links_remembered at the end of a crawl has
a destination whose parsed hostname equals the root hostname; a URL with no
parseable hostname yields none and is never recorded. -/
theorem claim9_host_locked_links (net : Network) (c : Crawler) (fuel : Nat)
    (h : String) (hfs : c.filter_seen = true) (hhost : c.host = some h) :
    ∀ l ∈ ((Crawler.crawl net c fuel).1).links_remembered,
      hostnameOf l.dst = some h := by
  have hinv : HostInv c ((Crawler.crawl net c fuel).1) := by
    refine crawlLoop_preserve net c (HostInv c) ?_ fuel _ _ ?_
    · refine processItem_preserve net c (HostInv c) ?_ ?_
      · intro u d s _ _ hP
        intro l hl
        exact hP l hl
      · exact fun src depth s u hP => processLinkOne_hostInv c hfs src depth s u hP
    · exact fun l hl => absurd hl (List.not_mem_nil l)
  intro l hl
  rw [← hhost]
  exact hinv l hl

/-- Witness for C9 at a concrete crawl with one remembered link. -/
theorem claim9_host_locked_links_witness :
    hostnameOf (Link.mk "http://root.example/" "http://root.example/a" "href").dst =
      some "root.example" :=
  claim9_host_locked_links netA cfgA 3 "root.example" (by decide) (by decide)
    (Link.mk "http://root.example/" "http://root.example/a" "href") (by decide)

/-- The locked flag plays no part in one outbound-URL step. -/
theorem processLinkOne_locked_irrel (root : String) (dl : Nat) (cf : Option String)
    (ex : List String) (b1 b2 fs : Bool) (src : String) (d : Nat) (s : CrawlState)
    (u : String) :
    processLinkOne (Crawler.init root dl cf ex b1 fs) src d s u =
      processLinkOne (Crawler.init root dl cf ex b2 fs) src d s u := rfl

/-- The locked flag plays no part in the inner loop. -/
theorem processLinks_locked_irrel (root : String) (dl : Nat) (cf : Option String)
    (ex : List String) (b1 b2 fs : Bool) (src : String) (d : Nat) :
    ∀ (urls : List String) (s : CrawlState),
      processLinks (Crawler.init root dl cf ex b1 fs) src d urls s =
        processLinks (Crawler.init root dl cf ex b2 fs) src d urls s := by
  intro urls
  induction urls with
  | nil => intro s; rfl
  | cons u rest ih =>
      intro s
      rw [processLinks_cons, processLinks_cons,
        processLinkOne_locked_irrel root dl cf ex b1 b2 fs src d s u, ih]

/-- The locked flag plays no part in one loop iteration. -/
theorem processItem_locked_irrel (net : Network) (root : String) (dl : Nat)
    (cf : Option String) (ex : List String) (b1 b2 fs : Bool) (u : String) (d : Nat)
    (s : CrawlState) :
    processItem net (Crawler.init root dl cf ex b1 fs) u d s =
      processItem net (Crawler.init root dl cf ex b2 fs) u d s := by
  unfold processItem
  by_cases hd : d > dl
  · have h1 : d > (Crawler.init root dl cf ex b1 fs).depth_limit := hd
    have h2 : d > (Crawler.init root dl cf ex b2 fs).depth_limit := hd
    rw [if_pos h1, if_pos h2]
  · have h1 : ¬ d > (Crawler.init root dl cf ex b1 fs).depth_limit := hd
    have h2 : ¬ d > (Crawler.init root dl cf ex b2 fs).depth_limit := hd
    rw [if_neg h1, if_neg h2]
    by_cases hf : Crawler.follow_ok (Crawler.init root dl cf ex b1 fs) s u = true
    · have hf2 : Crawler.follow_ok (Crawler.init root dl cf ex b2 fs) s u = true := hf
      rw [if_pos hf, if_pos hf2]
      cases hF : Fetcher.fetch net u with
      | exn => simp only [hF]
      | ok outs =>
          simp only [hF]
          rw [processLinks_locked_irrel root dl cf ex b1 b2 fs u d]
    · have hf2 : ¬ Crawler.follow_ok (Crawler.init root dl cf ex b2 fs) s u = true := hf
      rw [if_neg hf, if_neg hf2]

/-- The locked flag plays no part in the crawl loop. -/
theorem crawlLoop_locked_irrel (net : Network) (root : String) (dl : Nat)
    (cf : Option String) (ex : List String) (b1 b2 fs : Bool) :
    ∀ (fuel : Nat) (q : List (String × Nat)) (s : CrawlState),
      crawlLoop net (Crawler.init root dl cf ex b1 fs) fuel q s =
        crawlLoop net (Crawler.init root dl cf ex b2 fs) fuel q s := by
  intro fuel
  induction fuel with
  | zero =>
      intro q s
      cases q with
      | nil => rfl
      | cons it rest => rfl
  | succ f ih =>
      intro q s
      cases q with
      | nil => rfl
      | cons it rest =>
          obtain ⟨u, d⟩ := it
          rw [crawlLoop_step, crawlLoop_step,
            processItem_locked_irrel net root dl cf ex b1 b2 fs u d s, ih]

/-- Claim C10: the locked constructor parameter has no observable effect:
for every root, depth limit, confine, exclude and filter_seen configuration
and every network behaviour, two crawls differing only in locked produce the
same final state and completion flag, because the stored flag is never read
and the same-host filter sits in both filter lists unconditionally. -/
theorem claim10_locked_no_effect (net : Network) (root : String) (dl : Nat)
    (cf : Option String) (ex : List String) (fs b1 b2 : Bool) (fuel : Nat) :
    Crawler.crawl net (Crawler.init root dl cf ex b1 fs) fuel =
      Crawler.crawl net (Crawler.init root dl cf ex b2 fs) fuel := by
  unfold Crawler.crawl
  exact crawlLoop_locked_irrel net root dl cf ex b1 b2 fs fuel
    [(root, 0)] (initState root)

/-- Claim C7: a fetched page whose content type is not exactly HTML makes
fetch abort with an exception; the crawler had already counted the attempt,
so num_followed grows by one while num_links and links_remembered are
untouched, nothing is enqueued, and the loop goes on with the next frontier
item. -/
theorem claim7_non_html_zero_links (net : Network) (c : Crawler) (u : String)
    (d : Nat) (s : CrawlState) (mime : String) (hrefs : List (Option String))
    (hnet : net u = NetResult.page mime hrefs) (hmime : mime ≠ "text/html")
    (hd : ¬ d > c.depth_limit) (hf : Crawler.follow_ok c s u = true) :
    Fetcher.fetch net u = FetchOutcome.exn ∧
    processItem net c u d s = (fetchMark u d s, []) ∧
    (processItem net c u d s).1.num_links = s.num_links ∧
    (processItem net c u d s).1.links_remembered = s.links_remembered ∧
    (processItem net c u d s).1.num_followed = s.num_followed + 1 ∧
    ∀ (fuel : Nat) (rest : List (String × Nat)),
      crawlLoop net c (fuel + 1) ((u, d) :: rest) s =
        crawlLoop net c fuel rest (fetchMark u d s) := by
  have hfetch : Fetcher.fetch net u = FetchOutcome.exn := by
    unfold Fetcher.fetch
    rw [hnet]
    show (if mime = "text/html" then FetchOutcome.ok (collectOutUrls u hrefs)
      else FetchOutcome.exn) = FetchOutcome.exn
    rw [if_neg hmime]
  have hitem : processItem net c u d s = (fetchMark u d s, []) := by
    unfold processItem
    rw [if_neg hd, if_pos hf, hfetch]
  refine ⟨hfetch, hitem, ?_, ?_, ?_, ?_⟩
  · rw [hitem]; rfl
  · rw [hitem]; rfl
  · rw [hitem]; rfl
  · intro fuel rest
    rw [crawlLoop_step, hitem]
    simp only [List.append_nil]

/-- Witness for C7 on the Scenario D network serving a PDF root. -/
theorem claim7_non_html_zero_links_witness :
    Fetcher.fetch netD "http://h/" = FetchOutcome.exn ∧
    (processItem netD cfgD "http://h/" 0 (initState "http://h/")).1.num_followed =
      (initState "http://h/").num_followed + 1 ∧
    crawlLoop netD cfgD 1 [("http://h/", 0)] (initState "http://h/") =
      crawlLoop netD cfgD 0 [] (fetchMark "http://h/" 0 (initState "http://h/")) :=
  have h := claim7_non_html_zero_links netD cfgD "http://h/" 0 (initState "http://h/")
    "application/pdf" [] rfl (by decide) (by decide) (by decide)
  ⟨h.1, h.2.2.2.2.1, h.2.2.2.2.2 0 []⟩

/-- Claim C8: a links-only run fetches nothing but the given URL (the output
depends only on what the network serves for that URL), and on the Scenario B
page it prints exactly the outbound URLs containing the substring http,
numbered from 1 in emission order: the mailto link is dropped for lacking the
substring, the relative href is resolved against the root, the absolute href
is kept as is. -/
theorem claim8_getlinks_output :
    (∀ (n1 n2 : Network) (u : String), n1 u = n2 u → getLinks n1 u = getLinks n2 u) ∧
    getLinks netB "http://root.example/" =
      some ["1. http://root.example/rel", "2. http://abs.example/y"] := by
  constructor
  · intro n1 n2 u h
    unfold getLinks Fetcher.fetch
    rw [h]
  · decide

/-- Witness for C8: the output is untouched when the network is replaced by
one agreeing only on the root URL. -/
theorem claim8_getlinks_output_witness :
    getLinks netB "http://root.example/" = getLinks netBRootOnly "http://root.example/" :=
  claim8_getlinks_output.1 netB netBRootOnly "http://root.example/" rfl

/-- Claim C4: in a crawl with depth limit 0 whose root passes every follow
filter and fetches as HTML, the run completes, exactly the root is fetched
(num_followed is 1), and every condensed outbound URL of the root that passes
the report filters is counted in num_links (duplicates included) and recorded
as a Link in links_remembered, even though all the depth-1 items carrying
those URLs are discarded unfetched. -/
theorem claim4_depth_zero_counts (net : Network) (c : Crawler)
    (hrefs : List (Option String)) (fuel : Nat) (hdl : c.depth_limit = 0)
    (hroot : net c.root = NetResult.page "text/html" hrefs)
    (hfollow : Crawler.follow_ok c (initState c.root) c.root = true)
    (hfuel : (collectOutUrls c.root hrefs).length + 1 ≤ fuel) :
    (Crawler.crawl net c fuel).2 = true ∧
    ((Crawler.crawl net c fuel).1).num_followed = 1 ∧
    ((Crawler.crawl net c fuel).1).num_links =
      ((collectOutUrls c.root hrefs).map Crawler.pre_visit_url_condense).countP
        (fun v => Crawler.report_ok c v) ∧
    ∀ v ∈ (collectOutUrls c.root hrefs).map Crawler.pre_visit_url_condense,
      Crawler.report_ok c v = true →
      Link.mk c.root v "href" ∈ ((Crawler.crawl net c fuel).1).links_remembered := by
  obtain ⟨f, rfl⟩ : ∃ f, fuel = f + 1 := ⟨fuel - 1, by omega⟩
  have hfetch : Fetcher.fetch net c.root = FetchOutcome.ok (collectOutUrls c.root hrefs) := by
    unfold Fetcher.fetch
    rw [hroot]
    show (if "text/html" = "text/html" then FetchOutcome.ok (collectOutUrls c.root hrefs)
      else FetchOutcome.exn) = _
    rw [if_pos rfl]
  have hitem : processItem net c c.root 0 (initState c.root) =
      processLinks c c.root 0
        ((collectOutUrls c.root hrefs).map Crawler.pre_visit_url_condense)
        (fetchMark c.root 0 (initState c.root)) := by
    unfold processItem
    rw [if_neg (by rw [hdl]; decide), if_pos hfollow, hfetch]
  have h1 : Crawler.crawl net c (f + 1) =
      crawlLoop net c f
        ((processLinks c c.root 0
          ((collectOutUrls c.root hrefs).map Crawler.pre_visit_url_condense)
          (fetchMark c.root 0 (initState c.root))).2)
        ((processLinks c c.root 0
          ((collectOutUrls c.root hrefs).map Crawler.pre_visit_url_condense)
          (fetchMark c.root 0 (initState c.root))).1) := by
    show crawlLoop net c (f + 1) [(c.root, 0)] (initState c.root) = _
    rw [crawlLoop_step, hitem]
    rw [List.nil_append]
  have hdrain : crawlLoop net c f
      ((processLinks c c.root 0
        ((collectOutUrls c.root hrefs).map Crawler.pre_visit_url_condense)
        (fetchMark c.root 0 (initState c.root))).2)
      ((processLinks c c.root 0
        ((collectOutUrls c.root hrefs).map Crawler.pre_visit_url_condense)
        (fetchMark c.root 0 (initState c.root))).1) =
      ((processLinks c c.root 0
        ((collectOutUrls c.root hrefs).map Crawler.pre_visit_url_condense)
        (fetchMark c.root 0 (initState c.root))).1, true) := by
    refine crawlLoop_drain net c _ f _ ?_ ?_
    · intro it hit
      have hd1 := processLinks_items_depth c c.root 0 _ _ it hit
      rw [hdl]
      omega
    · have hlen := processLinks_items_len c c.root 0
        ((collectOutUrls c.root hrefs).map Crawler.pre_visit_url_condense)
        (fetchMark c.root 0 (initState c.root))
      have hmlen : ((collectOutUrls c.root hrefs).map Crawler.pre_visit_url_condense).length =
          (collectOutUrls c.root hrefs).length := List.length_map _ _
      omega
  rw [h1, hdrain]
  refine ⟨rfl, ?_, ?_, ?_⟩
  · rw [processLinks_num_followed]
    rfl
  · rw [processLinks_num_links]
    exact Nat.zero_add _
  · intro v hv hrep
    exact processLinks_links_mem c c.root 0 _ _ v hv hrep

/-- Witness for C4 on the Scenario C network with depth limit 0. -/
theorem claim4_depth_zero_counts_witness :
    (Crawler.crawl netC cfgC 3).2 = true ∧
    ((Crawler.crawl netC cfgC 3).1).num_followed = 1 ∧
    ((Crawler.crawl netC cfgC 3).1).num_links =
      ((collectOutUrls cfgC.root [some "/x", some "http://e/y"]).map
        Crawler.pre_visit_url_condense).countP (fun v => Crawler.report_ok cfgC v) ∧
    Link.mk cfgC.root "http://h/x" "href" ∈
      ((Crawler.crawl netC cfgC 3).1).links_remembered :=
  have h := claim4_depth_zero_counts netC cfgC [some "/x", some "http://e/y"] 3
    (by decide) (by decide) (by decide) (by decide)
  ⟨h.1, h.2.1, h.2.2.1, h.2.2.2 "http://h/x" (by decide) (by decide)⟩

/-- A followed item within the depth limit fetches and processes the
returned outbound URLs. -/
theorem processItem_go (net : Network) (c : Crawler) (u : String) (d : Nat)
    (s : CrawlState) (outs : List String) (hd : ¬ d > c.depth_limit)
    (hf : Crawler.follow_ok c s u = true)
    (hfetch : Fetcher.fetch net u = FetchOutcome.ok outs) :
    processItem net c u d s =
      processLinks c u d (outs.map Crawler.pre_visit_url_condense) (fetchMark u d s) := by
  unfold processItem
  rw [if_neg hd, if_pos hf, hfetch]

/-- An item within the depth limit failing some follow filter is skipped. -/
theorem processItem_skip (net : Network) (c : Crawler) (u : String) (d : Nat)
    (s : CrawlState) (hd : ¬ d > c.depth_limit)
    (hf : ¬ Crawler.follow_ok c s u = true) :
    processItem net c u d s = (s, []) := by
  unfold processItem
  rw [if_neg hd, if_neg hf]

/-- The inner loop on no outbound URLs changes nothing. -/
theorem processLinks_nil (c : Crawler) (src : String) (d : Nat) (s : CrawlState) :
    processLinks c src d [] s = (s, []) := rfl

/-- The follow filters never read the depth limit. -/
theorem follow_ok_depth_irrel (root : String) (d1 d2 : Nat) (cf : Option String)
    (ex : List String) (b fs : Bool) (s : CrawlState) (u : String) :
    Crawler.follow_ok (Crawler.init root d1 cf ex b fs) s u =
      Crawler.follow_ok (Crawler.init root d2 cf ex b fs) s u := rfl

/-- One outbound-URL step never reads the depth limit. -/
theorem processLinkOne_depth_irrel (root : String) (d1 d2 : Nat) (cf : Option String)
    (ex : List String) (b fs : Bool) (src : String) (dep : Nat) (s : CrawlState)
    (u : String) :
    processLinkOne (Crawler.init root d1 cf ex b fs) src dep s u =
      processLinkOne (Crawler.init root d2 cf ex b fs) src dep s u := rfl

/-- The inner loop never reads the depth limit. -/
theorem processLinks_depth_irrel (root : String) (d1 d2 : Nat) (cf : Option String)
    (ex : List String) (b fs : Bool) (src : String) (dep : Nat) :
    ∀ (urls : List String) (s : CrawlState),
      processLinks (Crawler.init root d1 cf ex b fs) src dep urls s =
        processLinks (Crawler.init root d2 cf ex b fs) src dep urls s := by
  intro urls
  induction urls with
  | nil => intro s; rfl
  | cons u rest ih =>
      intro s
      rw [processLinks_cons, processLinks_cons,
        processLinkOne_depth_irrel root d1 d2 cf ex b fs src dep s u, ih]

/-- Claim C5: Scenario A with default settings and any depth limit of at
least 1 and any sufficient fuel: the crawl completes having fetched exactly
the root and the resolved same-host link (num_followed is 2), counted one
link (num_links is 1), and remembered exactly one Link whose destination is
the absolute resolution of the escaped href slash-a against the root URL. -/
theorem claim5_scenario_a (d fuel : Nat) (hd : 1 ≤ d) (hfuel : 3 ≤ fuel) :
    (Crawler.crawl netA (Crawler.init "http://root.example/" d none [] true true) fuel).2 = true ∧
    ((Crawler.crawl netA (Crawler.init "http://root.example/" d none [] true true) fuel).1).num_followed = 2 ∧
    ((Crawler.crawl netA (Crawler.init "http://root.example/" d none [] true true) fuel).1).num_links = 1 ∧
    ((Crawler.crawl netA (Crawler.init "http://root.example/" d none [] true true) fuel).1).links_remembered =
      [Link.mk "http://root.example/"
        (urljoin "http://root.example/" (htmlEscape "/a")) "href"] := by
  obtain ⟨k, rfl⟩ : ∃ k, d = k + 1 := ⟨d - 1, by omega⟩
  obtain ⟨m, rfl⟩ : ∃ m, fuel = m + 3 := ⟨fuel - 3, by omega⟩
  have hf1 : Crawler.follow_ok (Crawler.init "http://root.example/" (k + 1) none [] true true)
      (initState "http://root.example/") "http://root.example/" = true := by
    rw [follow_ok_depth_irrel "http://root.example/" (k + 1) 1 none [] true true]
    decide
  have hi1 : processItem netA (Crawler.init "http://root.example/" (k + 1) none [] true true)
      "http://root.example/" 0 (initState "http://root.example/") =
      (CrawlState.mk ["http://root.example/a", "http://other.example/b"]
        ["http://root.example/a"] ["http://root.example/"]
        [Link.mk "http://root.example/" "http://root.example/a" "href"] 1 1
        ["http://root.example/", "http://root.example/a", "http://other.example/b"]
        [("http://root.example/", 0)],
       [("http://root.example/a", 1), ("http://other.example/b", 1)]) := by
    rw [processItem_go netA _ _ _ _ ["http://root.example/a", "http://other.example/b"]
      (by show ¬ (0 > k + 1); omega) hf1 (by decide)]
    rw [processLinks_depth_irrel "http://root.example/" (k + 1) 1 none [] true true]
    decide
  have hf2 : Crawler.follow_ok (Crawler.init "http://root.example/" (k + 1) none [] true true)
      (CrawlState.mk ["http://root.example/a", "http://other.example/b"]
        ["http://root.example/a"] ["http://root.example/"]
        [Link.mk "http://root.example/" "http://root.example/a" "href"] 1 1
        ["http://root.example/", "http://root.example/a", "http://other.example/b"]
        [("http://root.example/", 0)]) "http://root.example/a" = true := by
    rw [follow_ok_depth_irrel "http://root.example/" (k + 1) 1 none [] true true]
    decide
  have hi2 : processItem netA (Crawler.init "http://root.example/" (k + 1) none [] true true)
      "http://root.example/a" 1
      (CrawlState.mk ["http://root.example/a", "http://other.example/b"]
        ["http://root.example/a"] ["http://root.example/"]
        [Link.mk "http://root.example/" "http://root.example/a" "href"] 1 1
        ["http://root.example/", "http://root.example/a", "http://other.example/b"]
        [("http://root.example/", 0)]) =
      (CrawlState.mk ["http://root.example/a", "http://other.example/b"]
        ["http://root.example/a"] ["http://root.example/", "http://root.example/a"]
        [Link.mk "http://root.example/" "http://root.example/a" "href"] 1 2
        ["http://root.example/", "http://root.example/a", "http://other.example/b"]
        [("http://root.example/", 0), ("http://root.example/a", 1)], []) := by
    rw [processItem_go netA _ _ _ _ [] (by show ¬ (1 > k + 1); omega) hf2 (by decide)]
    rw [List.map_nil, processLinks_nil]
    decide
  have hf3 : ¬ Crawler.follow_ok (Crawler.init "http://root.example/" (k + 1) none [] true true)
      (CrawlState.mk ["http://root.example/a", "http://other.example/b"]
        ["http://root.example/a"] ["http://root.example/", "http://root.example/a"]
        [Link.mk "http://root.example/" "http://root.example/a" "href"] 1 2
        ["http://root.example/", "http://root.example/a", "http://other.example/b"]
        [("http://root.example/", 0), ("http://root.example/a", 1)])
      "http://other.example/b" = true := by
    rw [follow_ok_depth_irrel "http://root.example/" (k + 1) 1 none [] true true]
    decide
  have hi3 : processItem netA (Crawler.init "http://root.example/" (k + 1) none [] true true)
      "http://other.example/b" 1
      (CrawlState.mk ["http://root.example/a", "http://other.example/b"]
        ["http://root.example/a"] ["http://root.example/", "http://root.example/a"]
        [Link.mk "http://root.example/" "http://root.example/a" "href"] 1 2
        ["http://root.example/", "http://root.example/a", "http://other.example/b"]
        [("http://root.example/", 0), ("http://root.example/a", 1)]) =
      (CrawlState.mk ["http://root.example/a", "http://other.example/b"]
        ["http://root.example/a"] ["http://root.example/", "http://root.example/a"]
        [Link.mk "http://root.example/" "http://root.example/a" "href"] 1 2
        ["http://root.example/", "http://root.example/a", "http://other.example/b"]
        [("http://root.example/", 0), ("http://root.example/a", 1)], []) :=
    processItem_skip netA _ _ _ _ (by show ¬ (1 > k + 1); omega) hf3
  have hrun : Crawler.crawl netA
      (Crawler.init "http://root.example/" (k + 1) none [] true true) (m + 3) =
      (CrawlState.mk ["http://root.example/a", "http://other.example/b"]
        ["http://root.example/a"] ["http://root.example/", "http://root.example/a"]
        [Link.mk "http://root.example/" "http://root.example/a" "href"] 1 2
        ["http://root.example/", "http://root.example/a", "http://other.example/b"]
        [("http://root.example/", 0), ("http://root.example/a", 1)], true) := by
    show crawlLoop netA (Crawler.init "http://root.example/" (k + 1) none [] true true)
      (m + 3) [("http://root.example/", 0)] (initState "http://root.example/") = _
    rw [crawlLoop_step, hi1]
    show crawlLoop netA (Crawler.init "http://root.example/" (k + 1) none [] true true)
      (m + 2) [("http://root.example/a", 1), ("http://other.example/b", 1)]
      (CrawlState.mk ["http://root.example/a", "http://other.example/b"]
        ["http://root.example/a"] ["http://root.example/"]
        [Link.mk "http://root.example/" "http://root.example/a" "href"] 1 1
        ["http://root.example/", "http://root.example/a", "http://other.example/b"]
        [("http://root.example/", 0)]) = _
    rw [crawlLoop_step, hi2]
    show crawlLoop netA (Crawler.init "http://root.example/" (k + 1) none [] true true)
      (m + 1) [("http://other.example/b", 1)]
      (CrawlState.mk ["http://root.example/a", "http://other.example/b"]
        ["http://root.example/a"] ["http://root.example/", "http://root.example/a"]
        [Link.mk "http://root.example/" "http://root.example/a" "href"] 1 2
        ["http://root.example/", "http://root.example/a", "http://other.example/b"]
        [("http://root.example/", 0), ("http://root.example/a", 1)]) = _
    rw [crawlLoop_step, hi3]
    show crawlLoop netA (Crawler.init "http://root.example/" (k + 1) none [] true true)
      m []
      (CrawlState.mk ["http://root.example/a", "http://other.example/b"]
        ["http://root.example/a"] ["http://root.example/", "http://root.example/a"]
        [Link.mk "http://root.example/" "http://root.example/a" "href"] 1 2
        ["http://root.example/", "http://root.example/a", "http://other.example/b"]
        [("http://root.example/", 0), ("http://root.example/a", 1)]) = _
    exact crawlLoop_nil netA _ m _
  rw [hrun]
  exact ⟨rfl, rfl, rfl, by decide⟩

/-- Witness for C5 at depth limit 1 and fuel 3. -/
theorem claim5_scenario_a_witness :
    (Crawler.crawl netA (Crawler.init "http://root.example/" 1 none [] true true) 3).2 = true ∧
    ((Crawler.crawl netA (Crawler.init "http://root.example/" 1 none [] true true) 3).1).num_followed = 2 ∧
    ((Crawler.crawl netA (Crawler.init "http://root.example/" 1 none [] true true) 3).1).num_links = 1 ∧
    ((Crawler.crawl netA (Crawler.init "http://root.example/" 1 none [] true true) 3).1).links_remembered =
      [Link.mk "http://root.example/"
        (urljoin "http://root.example/" (htmlEscape "/a")) "href"] :=
  claim5_scenario_a 1 3 (by decide) (by decide)
